import Mathlib

/-!
Verification of the file/comment CRUD core of `backend/apps/files/views.py`
(a Django REST Framework application).

The embedding models each view handler as a pure function from the request
parameters and an explicit database state to a response (and, for mutating
handlers, a next state).  Django/DRF behaviours that the handlers rely on are
made explicit:

* `Model.objects.get(id=...)` either returns the row or raises
  `DoesNotExist`; inside a DRF view an uncaught `DoesNotExist` is NOT
  converted to a structured response (it surfaces as an unhandled server
  error), which the model records as `Resp.unhandled`.
* `get_object_or_404` returns the row or produces a structured 404
  (`Resp.notFound404`).
* `Response({...})` with no status argument is a normal 200 response; an
  error payload inside it is still a non-failing response (`Resp.okError`).
* `serializer.is_valid(raise_exception=True)` produces a structured 400
  validation error (`Resp.validationError`) on malformed input, while
  calling `serializer.save()` after a plain `is_valid()` that returned
  `False` raises an uncaught `AssertionError` (`Resp.unhandled`).
* A Django model instance defines no `__bool__`/`__len__`, so its
  truthiness is always `True` (`isTruthy`).
-/

namespace MediReg

/-- A `File` row: `id` primary key, `owner` the principal id of the creator,
`name` the mutable display name, `upload` the `FileField` storage name (also
standing in for the stored byte content, which is keyed by it). -/
structure File where
  id : Nat
  owner : Nat
  name : String
  upload : String
deriving Repr, DecidableEq

/-- A `Comment` row: `id` primary key, `fileId` the foreign key to the
commented `File`, `owner` the principal id of the commenter, `body` the
text. -/
structure Comment where
  id : Nat
  fileId : Nat
  owner : Nat
  body : String
deriving Repr, DecidableEq

/-- The database state: the `File` table and the `Comment` table, each in
insertion order (creation appends at the end). -/
structure State where
  files : List File
  comments : List Comment
deriving Repr, DecidableEq

/-- Outcome of one handler invocation, as observed at the HTTP boundary. -/
inductive Resp where
  /-- 200 paginated list of files (one page of results). -/
  | paginated (data : List File)
  /-- 200 plain message response, e.g. `Response(_("You do not have any files"))`. -/
  | message (text : String)
  /-- 200 response with a `{"success": ...}` payload. -/
  | okSuccess (text : String)
  /-- 200 response with an `{"error": ...}` payload: a normal, non-failing
  response that merely carries an error-shaped body. -/
  | okError (text : String)
  /-- 200 response carrying updated file data. -/
  | okFileData (f : File)
  /-- 200 response carrying a file plus its comments. -/
  | okFileWithComments (f : File) (cs : List Comment)
  /-- 200 response carrying updated comment data. -/
  | okCommentData (c : Comment)
  /-- 201 created response carrying the new file. -/
  | createdFile (f : File)
  /-- 201 created response carrying the new comment. -/
  | createdComment (c : Comment)
  /-- `FileResponse` byte stream of the stored content plus the suggested
  filename placed in the `Content-Disposition` header. -/
  | stream (content : String) (filename : String)
  /-- Structured 404 response. -/
  | notFound404 (text : String)
  /-- Structured 403 produced by a permission class. -/
  | forbidden403
  /-- Structured 400 from `is_valid(raise_exception=True)`. -/
  | validationError
  /-- An uncaught exception escaping the handler (`DoesNotExist`,
  `AssertionError`): an unhandled server failure, not a structured error. -/
  | unhandled
deriving Repr, DecidableEq

/-- Character-list version of case-insensitive ASCII prefix testing used by
`icontains`. -/
def isPrefixChars : List Char → List Char → Bool
  | [], _ => true
  | _ :: _, [] => false
  | a :: as, b :: bs => a == b && isPrefixChars as bs

/-- Substring test on character lists: `containsChars needle hay` is true iff
`needle` occurs contiguously in `hay` (the empty needle always occurs). -/
def containsChars (needle : List Char) : List Char → Bool
  | [] => needle.isEmpty
  | b :: bs => isPrefixChars needle (b :: bs) || containsChars needle bs

/-- Django's `name__icontains=query` filter: case-insensitive substring
match of `needle` inside `hay`. -/
def icontains (hay needle : String) : Bool :=
  containsChars (needle.toList.map Char.toLower) (hay.toList.map Char.toLower)

/-- A Django model instance defines no `__bool__` or `__len__`, so Python
object truthiness makes every instance truthy. -/
def isTruthy (_ : File) : Bool :=
  true

/-- Smallest id strictly above every existing file id. -/
def freshFileId (s : State) : Nat :=
  s.files.foldr (fun f m => max (f.id + 1) m) 0

/-- Smallest id strictly above every existing comment id. -/
def freshCommentId (s : State) : Nat :=
  s.comments.foldr (fun c m => max (c.id + 1) m) 0

/-- Replace the name of the first file with the given id (the row
`serializer.save()` writes back). -/
def updateFirstFile (l : List File) (id : Nat) (newName : String) : List File :=
  match l with
  | [] => []
  | f :: fs =>
    if f.id == id then { f with name := newName } :: fs
    else f :: updateFirstFile fs id newName

/-- Replace the body of the first comment with the given id. -/
def updateFirstComment (l : List Comment) (id : Nat) (newBody : String) : List Comment :=
  match l with
  | [] => []
  | c :: cs =>
    if c.id == id then { c with body := newBody } :: cs
    else c :: updateFirstComment cs id newBody

/-- DRF `PageNumberPagination` page size fixed by `page_size = 5`. -/
def pageSize : Nat := 5

/-- `FileListCreateView.get`: reads `query` (absent means `""`), filters the
`File` table by `owner=user, name__icontains=query`, and either paginates the
matches (page numbers start at 1) or answers with the plain
"You do not have any files" message when nothing matched. -/
def fileList (p : Nat) (query : Option String) (page : Nat) (s : State) : Resp :=
  let q := query.getD ""
  let hits := s.files.filter (fun f => f.owner == p && icontains f.name q)
  if hits.isEmpty then Resp.message "You do not have any files"
  else Resp.paginated ((hits.drop (pageSize * (page - 1))).take pageSize)

/-- `FileListCreateView.post`: validates with `raise_exception=True`, then
saves a new file owned by the requester.  Modelled from the spec:
`FileSerializer` is not in src; per the spec, creation fails with
`ValidationError` if required fields (name, content) are missing and
otherwise stores the content and creates a record owned by the principal. -/
def fileCreate (p : Nat) (name upload : Option String) (s : State) : Resp × State :=
  match name, upload with
  | some n, some u =>
    let f : File := { id := freshFileId s, owner := p, name := n, upload := u }
    (Resp.createdFile f, { s with files := s.files ++ [f] })
  | _, _ => (Resp.validationError, s)

/-- `FileUpdateDestroyView.put`: `File.objects.get(id=id)` raises an uncaught
`DoesNotExist` when the row is missing; otherwise the serializer is run with
a bare `is_valid()` (no `raise_exception`) followed by `save()`, so invalid
input makes `save()` raise an uncaught `AssertionError`.  The update input is
the new name; Modelled from the spec: `FileSerializer` is not in src, and per
the spec an update carries `newName` and is malformed iff the required field
is missing. -/
def filePut (p : Nat) (id : Nat) (newName : Option String) (s : State) : Resp × State :=
  match s.files.find? (fun f => f.id == id) with
  | none => (Resp.unhandled, s)
  | some f =>
    match newName with
    | none => (Resp.unhandled, s)
    | some n =>
      (Resp.okFileData { f with name := n },
       { s with files := updateFirstFile s.files id n })

/-- `FileUpdateDestroyView.delete`: `File.objects.get(id=id)` raises an
uncaught `DoesNotExist` when missing; otherwise the handler tests the
instance's truthiness (always true), deletes the row, and answers success.
The dead else-branch returning `{"error": "File not found"}` is kept in the
model exactly as written.  Modelled from the spec: the `Comment.file` foreign
key (models.py is not in src) cascades, so deleting a file also deletes every
comment referencing it. -/
def fileDelete (p : Nat) (id : Nat) (s : State) : Resp × State :=
  match s.files.find? (fun f => f.id == id) with
  | none => (Resp.unhandled, s)
  | some f =>
    if isTruthy f then
      (Resp.okSuccess "file deleted succesfully",
       { files := s.files.filter (fun g => !(g.id == id)),
         comments := s.comments.filter (fun c => !(c.fileId == id)) })
    else (Resp.okError "File not found", s)

/-- `DownloadFileAPIView.get`: catches `File.DoesNotExist` and answers a
structured 404; otherwise opens the stored content and returns a
`FileResponse` with `Content-Disposition: attachment; filename="<file.file.name>"`.
The view declares no permission classes and the handler never reads
`request.user`, so the requesting principal (`none` = unauthenticated) is
taken as a parameter but ignored. -/
def download (principal : Option Nat) (fileId : Nat) (s : State) : Resp :=
  match s.files.find? (fun f => f.id == fileId) with
  | none => Resp.notFound404 "File not found"
  | some f => Resp.stream f.upload f.upload

/-- `CommentOnFile.post`: `get_object_or_404(File, id=id)` answers a
structured 404 when the file is missing; then the comment serializer runs
with `raise_exception=True` and the comment is saved with
`file=file, owner=request.user`.  Modelled from the spec: `CommentSerializer`
is not in src; per the spec the body text is the required field. -/
def addComment (p : Nat) (fileId : Nat) (body : Option String) (s : State) : Resp × State :=
  match s.files.find? (fun f => f.id == fileId) with
  | none => (Resp.notFound404 "Not found", s)
  | some _ =>
    match body with
    | none => (Resp.validationError, s)
    | some b =>
      let c : Comment := { id := freshCommentId s, fileId := fileId, owner := p, body := b }
      (Resp.createdComment c, { s with comments := s.comments ++ [c] })

/-- `GetFileComments.get`: returns the file with its comments.  Modelled from
the spec: `utils.permissions.ISOwner` is not in src; per the spec's Access
Control Policy the thread read requires `principal == file.owner`
(`Forbidden` otherwise) and answers `NotFound` when the file does not exist,
while the comment update/delete handlers of the same view are governed only
by their own in-view logic. -/
def getFileComments (p : Nat) (id : Nat) (s : State) : Resp :=
  match s.files.find? (fun f => f.id == id) with
  | none => Resp.notFound404 "Not found"
  | some f =>
    if p == f.owner then
      Resp.okFileWithComments f (s.comments.filter (fun c => c.fileId == id))
    else Resp.forbidden403

/-- `GetFileComments.put`: `Comment.objects.get(id=id)` raises an uncaught
`DoesNotExist` when missing; otherwise validates with `raise_exception=True`
and saves the new body.  No ownership check is performed. -/
def updateComment (p : Nat) (id : Nat) (newBody : Option String) (s : State) : Resp × State :=
  match s.comments.find? (fun c => c.id == id) with
  | none => (Resp.unhandled, s)
  | some c =>
    match newBody with
    | none => (Resp.validationError, s)
    | some b =>
      (Resp.okCommentData { c with body := b },
       { s with comments := updateFirstComment s.comments id b })

/-- `GetFileComments.delete`: `Comment.objects.get(id=id)` raises an uncaught
`DoesNotExist` when missing; otherwise, if the requester is the comment's
owner or the comment's file's owner, the comment is deleted with a success
response, and any other requester gets a normal 200 response carrying the
permission-denied payload, with nothing deleted.  Accessing `comment.file`
dereferences the foreign key; a dangling reference (impossible under the
cascade invariant) would itself raise, recorded as `Resp.unhandled`. -/
def deleteComment (p : Nat) (id : Nat) (s : State) : Resp × State :=
  match s.comments.find? (fun c => c.id == id) with
  | none => (Resp.unhandled, s)
  | some c =>
    match s.files.find? (fun f => f.id == c.fileId) with
    | none => (Resp.unhandled, s)
    | some f =>
      if p == c.owner || p == f.owner then
        (Resp.okSuccess "comment deleted succesfully",
         { s with comments := s.comments.filter (fun d => !(d.id == id)) })
      else (Resp.okError "you do not have the permission to delete this comment", s)

/-- The files carried by a response (empty for any non-list response). -/
def resultFiles : Resp → List File
  | Resp.paginated data => data
  | _ => []

/-- Referential integrity: every comment references a live file. -/
def WF (s : State) : Prop :=
  ∀ c ∈ s.comments, ∃ f ∈ s.files, f.id = c.fileId

/-- One state-mutating request, with its parameters. -/
inductive Op where
  | create (p : Nat) (name upload : Option String)
  | put (p : Nat) (id : Nat) (newName : Option String)
  | fdelete (p : Nat) (id : Nat)
  | addC (p : Nat) (fileId : Nat) (body : Option String)
  | putC (p : Nat) (id : Nat) (newBody : Option String)
  | delC (p : Nat) (id : Nat)

/-- State transition of one request (the state component of the handler). -/
def step (o : Op) (s : State) : State :=
  match o with
  | Op.create p n u => (fileCreate p n u s).2
  | Op.put p id n => (filePut p id n s).2
  | Op.fdelete p id => (fileDelete p id s).2
  | Op.addC p fid b => (addComment p fid b s).2
  | Op.putC p id b => (updateComment p id b s).2
  | Op.delC p id => (deleteComment p id s).2

/-- States reachable from the empty database by any sequence of requests. -/
inductive Reachable : State → Prop where
  | init : Reachable ⟨[], []⟩
  | next {s : State} (o : Op) : Reachable s → Reachable (step o s)

/-- C1: `deleteComment(principal, commentId)` deletes the comment and reports
success iff the principal is the comment's owner or the comment's file's
owner; every other principal gets a normal (non-failing) 200 response
carrying the permission-denied payload and the comment is not deleted. -/
theorem deleteComment_policy
    (p cid : Nat) (s : State) (c : Comment) (f : File)
    (hc : s.comments.find? (fun d => d.id == cid) = some c)
    (hf : s.files.find? (fun g => g.id == c.fileId) = some f) :
    ((p = c.owner ∨ p = f.owner) →
      (deleteComment p cid s).1 = Resp.okSuccess "comment deleted succesfully" ∧
      ∀ d ∈ (deleteComment p cid s).2.comments, d.id ≠ cid) ∧
    (¬(p = c.owner ∨ p = f.owner) →
      (deleteComment p cid s).1 =
        Resp.okError "you do not have the permission to delete this comment" ∧
      (deleteComment p cid s).2 = s) := by
  constructor
  · intro hperm
    have hb : (p == c.owner || p == f.owner) = true := by
      simpa [Bool.or_eq_true, beq_iff_eq] using hperm
    simp only [deleteComment, hc, hf, hb, if_true]
    refine ⟨trivial, ?_⟩
    intro d hd
    simp only [List.mem_filter, Bool.not_eq_true', beq_eq_false_iff_ne] at hd
    exact hd.2
  · intro hperm
    have hb : (p == c.owner || p == f.owner) = false := by
      simpa [Bool.or_eq_true, beq_iff_eq, not_or] using hperm
    simp [deleteComment, hc, hf, hb]

/-- C1 witness: on a concrete state the comment owner's delete succeeds and
removes the comment, while a stranger gets the permission-denied payload and
the state is unchanged. -/
theorem deleteComment_policy_witness :
    ((deleteComment 20 2 ⟨[⟨1, 10, "f", "u"⟩], [⟨2, 1, 20, "hi"⟩]⟩).1 =
        Resp.okSuccess "comment deleted succesfully" ∧
      ∀ d ∈ (deleteComment 20 2 ⟨[⟨1, 10, "f", "u"⟩], [⟨2, 1, 20, "hi"⟩]⟩).2.comments,
        d.id ≠ 2) ∧
    ((deleteComment 99 2 ⟨[⟨1, 10, "f", "u"⟩], [⟨2, 1, 20, "hi"⟩]⟩).1 =
        Resp.okError "you do not have the permission to delete this comment" ∧
      (deleteComment 99 2 ⟨[⟨1, 10, "f", "u"⟩], [⟨2, 1, 20, "hi"⟩]⟩).2 =
        ⟨[⟨1, 10, "f", "u"⟩], [⟨2, 1, 20, "hi"⟩]⟩) :=
  ⟨(deleteComment_policy 20 2 ⟨[⟨1, 10, "f", "u"⟩], [⟨2, 1, 20, "hi"⟩]⟩
      ⟨2, 1, 20, "hi"⟩ ⟨1, 10, "f", "u"⟩ rfl rfl).1 (Or.inl rfl),
   (deleteComment_policy 99 2 ⟨[⟨1, 10, "f", "u"⟩], [⟨2, 1, 20, "hi"⟩]⟩
      ⟨2, 1, 20, "hi"⟩ ⟨1, 10, "f", "u"⟩ rfl rfl).2 (by decide)⟩

/-- C2: `getFileWithComments(principal, fileId)` returns the file plus its
comments only for the file's owner, answers `Forbidden` for any other
principal, and `NotFound` when no file with that id exists. -/
theorem getFileWithComments_policy (p fid : Nat) (s : State) :
    (s.files.find? (fun g => g.id == fid) = none →
      getFileComments p fid s = Resp.notFound404 "Not found") ∧
    (∀ f, s.files.find? (fun g => g.id == fid) = some f →
      (p = f.owner →
        getFileComments p fid s =
          Resp.okFileWithComments f (s.comments.filter (fun c => c.fileId == fid))) ∧
      (p ≠ f.owner → getFileComments p fid s = Resp.forbidden403)) := by
  refine ⟨fun h => ?_, fun f hf => ⟨fun hp => ?_, fun hp => ?_⟩⟩
  · simp [getFileComments, h]
  · simp [getFileComments, hf, beq_iff_eq, hp]
  · simp [getFileComments, hf, beq_iff_eq, hp]

/-- C2 witness: on a concrete state the owner reads the thread, a stranger is
forbidden, and a missing id is not found. -/
theorem getFileWithComments_policy_witness :
    getFileComments 10 1 ⟨[⟨1, 10, "f", "u"⟩], [⟨2, 1, 20, "hi"⟩]⟩ =
      Resp.okFileWithComments ⟨1, 10, "f", "u"⟩ [⟨2, 1, 20, "hi"⟩] ∧
    getFileComments 20 1 ⟨[⟨1, 10, "f", "u"⟩], [⟨2, 1, 20, "hi"⟩]⟩ =
      Resp.forbidden403 ∧
    getFileComments 10 7 ⟨[⟨1, 10, "f", "u"⟩], [⟨2, 1, 20, "hi"⟩]⟩ =
      Resp.notFound404 "Not found" :=
  ⟨(((getFileWithComments_policy 10 1
        ⟨[⟨1, 10, "f", "u"⟩], [⟨2, 1, 20, "hi"⟩]⟩).2 ⟨1, 10, "f", "u"⟩ rfl).1
      rfl).trans (by decide),
   ((getFileWithComments_policy 20 1
        ⟨[⟨1, 10, "f", "u"⟩], [⟨2, 1, 20, "hi"⟩]⟩).2 ⟨1, 10, "f", "u"⟩ rfl).2
      (by decide),
   (getFileWithComments_policy 10 7 ⟨[⟨1, 10, "f", "u"⟩], [⟨2, 1, 20, "hi"⟩]⟩).1
      rfl⟩

/-- Auxiliary: `find?` by id after renaming the first file with that id
returns the renamed row. -/
theorem find?_updateFirstFile (l : List File) (fid : Nat) (n : String) (f : File)
    (h : l.find? (fun g => g.id == fid) = some f) :
    (updateFirstFile l fid n).find? (fun g => g.id == fid) =
      some { f with name := n } := by
  induction l with
  | nil => simp [List.find?] at h
  | cons a as ih =>
    by_cases ha : a.id == fid
    · rw [List.find?_cons_of_pos (p := fun g => g.id == fid) as ha] at h
      injection h with h
      subst h
      unfold updateFirstFile
      rw [if_pos ha]
      exact List.find?_cons_of_pos (p := fun g => g.id == fid)
        (a := { a with name := n }) as ha
    · rw [List.find?_cons_of_neg (p := fun g => g.id == fid) as ha] at h
      unfold updateFirstFile
      rw [if_neg ha,
        List.find?_cons_of_neg (p := fun g => g.id == fid) (updateFirstFile as fid n) ha]
      exact ih h

/-- C3: for every principal `p` (owner or not) and every existing file,
`update(p, fileId, newName)` succeeds and renames the file: ownership is not
rechecked on file update. -/
theorem filePut_ignores_ownership
    (p fid : Nat) (n : String) (s : State) (f : File)
    (h : s.files.find? (fun g => g.id == fid) = some f) :
    (filePut p fid (some n) s).1 = Resp.okFileData { f with name := n } ∧
    (filePut p fid (some n) s).2.files.find? (fun g => g.id == fid) =
      some { f with name := n } ∧
    (filePut p fid (some n) s).2.comments = s.comments := by
  simp only [filePut, h]
  exact ⟨trivial, find?_updateFirstFile s.files fid n f h, trivial⟩

/-- C3 witness: principal 99, who does not own file 1 (owner 10), renames it
anyway. -/
theorem filePut_ignores_ownership_witness :
    (filePut 99 1 (some "new") ⟨[⟨1, 10, "old", "u"⟩], []⟩).1 =
      Resp.okFileData ⟨1, 10, "new", "u"⟩ ∧
    (filePut 99 1 (some "new") ⟨[⟨1, 10, "old", "u"⟩], []⟩).2.files.find?
        (fun g => g.id == 1) = some ⟨1, 10, "new", "u"⟩ ∧
    (filePut 99 1 (some "new") ⟨[⟨1, 10, "old", "u"⟩], []⟩).2.comments = [] :=
  filePut_ignores_ownership 99 1 "new" ⟨[⟨1, 10, "old", "u"⟩], []⟩
    ⟨1, 10, "old", "u"⟩ rfl

/-- C6: when no file with the given id exists, the update handler does not
produce a structured `NotFound`: `File.objects.get` raises an uncaught
`DoesNotExist`, which surfaces as an unhandled server failure with the state
unchanged. -/
theorem filePut_missing_file_unhandled
    (p fid : Nat) (newName : Option String) (s : State)
    (h : s.files.find? (fun g => g.id == fid) = none) :
    filePut p fid newName s = (Resp.unhandled, s) := by
  simp [filePut, h]

/-- C6 witness: updating file 7 on an empty database is an unhandled failure,
not a structured `NotFound`. -/
theorem filePut_missing_file_unhandled_witness :
    filePut 1 7 (some "x") ⟨[], []⟩ = (Resp.unhandled, ⟨[], []⟩) :=
  filePut_missing_file_unhandled 1 7 (some "x") ⟨[], []⟩ rfl

/-- C7: `download(fileId)` answers a structured 404 exactly when no file with
that id exists, and otherwise streams the stored content with the stored
name as the suggested filename; the requesting principal is never consulted. -/
theorem download_spec (pr : Option Nat) (fid : Nat) (s : State) :
    (s.files.find? (fun g => g.id == fid) = none ↔
      download pr fid s = Resp.notFound404 "File not found") ∧
    (∀ f, s.files.find? (fun g => g.id == fid) = some f →
      download pr fid s = Resp.stream f.upload f.upload) := by
  constructor
  · constructor
    · intro h
      simp [download, h]
    · intro h
      cases hf : s.files.find? (fun g => g.id == fid) with
      | none => rfl
      | some f =>
        simp [download, hf] at h
  · intro f hf
    simp [download, hf]

/-- C7 witness: a missing id yields the 404, an existing id yields the byte
stream with the suggested filename. -/
theorem download_spec_witness :
    download (some 3) 7 ⟨[⟨1, 10, "f", "u"⟩], []⟩ =
      Resp.notFound404 "File not found" ∧
    download (some 3) 1 ⟨[⟨1, 10, "f", "u"⟩], []⟩ = Resp.stream "u" "u" :=
  ⟨(download_spec (some 3) 7 ⟨[⟨1, 10, "f", "u"⟩], []⟩).1.mp rfl,
   (download_spec (some 3) 1 ⟨[⟨1, 10, "f", "u"⟩], []⟩).2 ⟨1, 10, "f", "u"⟩ rfl⟩

/-- C8: a malformed update input does not produce a structured
`ValidationError`: the handler runs a bare `is_valid()` followed by `save()`,
so the call fails with an uncaught `AssertionError` (an unhandled failure),
and no change to the file is persisted. -/
theorem filePut_invalid_input_unhandled
    (p fid : Nat) (s : State) (f : File)
    (h : s.files.find? (fun g => g.id == fid) = some f) :
    filePut p fid none s = (Resp.unhandled, s) := by
  simp [filePut, h]

/-- C8 witness: updating existing file 1 with the required field missing is
an unhandled failure and persists nothing. -/
theorem filePut_invalid_input_unhandled_witness :
    filePut 10 1 none ⟨[⟨1, 10, "old", "u"⟩], []⟩ =
      (Resp.unhandled, ⟨[⟨1, 10, "old", "u"⟩], []⟩) :=
  filePut_invalid_input_unhandled 10 1 ⟨[⟨1, 10, "old", "u"⟩], []⟩
    ⟨1, 10, "old", "u"⟩ rfl

/-- C9: the outcome of `download` does not depend on the requesting principal
at all: any two callers (authenticated or not) obtain the identical result on
the same state. -/
theorem download_principal_independent
    (p q : Option Nat) (fid : Nat) (s : State) :
    download p fid s = download q fid s := rfl

/-- C10: in the file delete handler the branch answering the
`{"error": "File not found"}` payload is unreachable: `File.objects.get`
either returns a (truthy) instance or raises, so whenever the truthiness test
runs the file is present and deletion is performed with a success response. -/
theorem fileDelete_notfound_branch_unreachable :
    (∀ (p fid : Nat) (s : State),
      (fileDelete p fid s).1 ≠ Resp.okError "File not found") ∧
    (∀ (p fid : Nat) (s : State) (f : File),
      s.files.find? (fun g => g.id == fid) = some f →
      (fileDelete p fid s).1 = Resp.okSuccess "file deleted succesfully") := by
  constructor
  · intro p fid s
    unfold fileDelete
    cases hf : s.files.find? (fun g => g.id == fid) with
    | none => simp
    | some f => simp [isTruthy]
  · intro p fid s f h
    simp [fileDelete, h, isTruthy]

/-- C10 witness: deleting the present file 1 takes the success branch. -/
theorem fileDelete_notfound_branch_unreachable_witness :
    (fileDelete 10 1 ⟨[⟨1, 10, "f", "u"⟩], []⟩).1 =
      Resp.okSuccess "file deleted succesfully" :=
  fileDelete_notfound_branch_unreachable.2 10 1 ⟨[⟨1, 10, "f", "u"⟩], []⟩
    ⟨1, 10, "f", "u"⟩ rfl

/-- Auxiliary: the empty needle occurs in every character list. -/
theorem containsChars_nil_needle (l : List Char) : containsChars [] l = true := by
  cases l with
  | nil => rfl
  | cons b bs => simp [containsChars, isPrefixChars]

/-- Auxiliary: the empty query matches every name under `icontains`. -/
theorem icontains_empty (hay : String) : icontains hay "" = true := by
  have he : (("" : String).toList.map Char.toLower) = [] := by decide
  unfold icontains
  rw [he]
  exact containsChars_nil_needle _

/-- C4: `list(principal, query, page)` returns exactly the caller's files
whose name contains the query as a case-insensitive substring (the empty
query matches every name), in stored (insertion) order, as fixed-size pages
of 5; no file of any other owner ever appears in the result. -/
theorem fileList_spec (p : Nat) (q : Option String) (page : Nat) (s : State) :
    (∀ f, f ∈ s.files.filter
        (fun g => g.owner == p && icontains g.name (q.getD "")) ↔
      f ∈ s.files ∧ f.owner = p ∧ icontains f.name (q.getD "") = true) ∧
    ((s.files.filter
        (fun g => g.owner == p && icontains g.name (q.getD ""))).isEmpty = false →
      fileList p q page s =
        Resp.paginated (((s.files.filter
            (fun g => g.owner == p && icontains g.name (q.getD ""))).drop
          (pageSize * (page - 1))).take pageSize)) ∧
    ((s.files.filter
        (fun g => g.owner == p && icontains g.name (q.getD ""))).isEmpty = true →
      fileList p q page s = Resp.message "You do not have any files") ∧
    (∀ f, f ∈ resultFiles (fileList p q page s) →
      f ∈ s.files ∧ f.owner = p ∧ icontains f.name (q.getD "") = true) ∧
    List.Sublist
      (s.files.filter (fun g => g.owner == p && icontains g.name (q.getD "")))
      s.files ∧
    (∀ hay, icontains hay "" = true) := by
  refine ⟨?_, ?_, ?_, ?_, List.filter_sublist _, fun hay => icontains_empty hay⟩
  · intro f
    simp [List.mem_filter, Bool.and_eq_true, beq_iff_eq]
  · intro h
    simp [fileList, h]
  · intro h
    simp [fileList, h]
  · intro f hf
    by_cases h : (s.files.filter
        (fun g => g.owner == p && icontains g.name (q.getD ""))).isEmpty
    · simp [fileList, h, resultFiles] at hf
    · simp only [fileList, resultFiles, Bool.not_eq_true] at hf ⊢
      rw [if_neg (by simp [h])] at hf
      have hf' : f ∈ s.files.filter
          (fun g => g.owner == p && icontains g.name (q.getD "")) :=
        List.drop_subset _ _ (List.take_subset _ _ hf)
      simpa [List.mem_filter, Bool.and_eq_true, beq_iff_eq] using hf'

/-- C4 witness: with files "Report" (owner 1) and "Spore" (owner 2), owner 1
listing with query "po" gets exactly the page containing "Report". -/
theorem fileList_spec_witness :
    fileList 1 (some "po") 1 ⟨[⟨1, 1, "Report", "u"⟩, ⟨2, 2, "Spore", "v"⟩], []⟩ =
      Resp.paginated [⟨1, 1, "Report", "u"⟩] :=
  ((fileList_spec 1 (some "po") 1
      ⟨[⟨1, 1, "Report", "u"⟩, ⟨2, 2, "Spore", "v"⟩], []⟩).2.1 (by decide)).trans
    (by decide)

/-- Auxiliary: renaming the first file with a given id preserves which file
ids are present. -/
theorem exists_id_updateFirstFile (l : List File) (id0 : Nat) (n : String)
    (fid : Nat) (h : ∃ f ∈ l, f.id = fid) :
    ∃ f ∈ updateFirstFile l id0 n, f.id = fid := by
  induction l with
  | nil =>
    obtain ⟨f, hf, _⟩ := h
    simp at hf
  | cons a as ih =>
    obtain ⟨f, hmem, hfid⟩ := h
    unfold updateFirstFile
    by_cases ha : a.id == id0
    · rw [if_pos ha]
      rcases List.mem_cons.mp hmem with rfl | hmem'
      · exact ⟨{ f with name := n }, List.mem_cons_self _ _, hfid⟩
      · exact ⟨f, List.mem_cons_of_mem _ hmem', hfid⟩
    · rw [if_neg ha]
      rcases List.mem_cons.mp hmem with rfl | hmem'
      · exact ⟨f, List.mem_cons_self _ _, hfid⟩
      · obtain ⟨g, hg, hgid⟩ := ih ⟨f, hmem', hfid⟩
        exact ⟨g, List.mem_cons_of_mem _ hg, hgid⟩

/-- Auxiliary: every comment present after re-bodying the first comment with
a given id has the file reference of some comment already present. -/
theorem exists_fileId_updateFirstComment (l : List Comment) (id0 : Nat)
    (b : String) (c' : Comment) (h : c' ∈ updateFirstComment l id0 b) :
    ∃ c ∈ l, c.fileId = c'.fileId := by
  induction l with
  | nil => simp [updateFirstComment] at h
  | cons a as ih =>
    unfold updateFirstComment at h
    by_cases ha : a.id == id0
    · rw [if_pos ha] at h
      rcases List.mem_cons.mp h with rfl | h'
      · exact ⟨a, List.mem_cons_self _ _, rfl⟩
      · exact ⟨c', List.mem_cons_of_mem _ h', rfl⟩
    · rw [if_neg ha] at h
      rcases List.mem_cons.mp h with rfl | h'
      · exact ⟨c', List.mem_cons_self _ _, rfl⟩
      · obtain ⟨c, hc, hcf⟩ := ih h'
        exact ⟨c, List.mem_cons_of_mem _ hc, hcf⟩

/-- Auxiliary: every request handler preserves referential integrity of
comments. -/
theorem WF_step (o : Op) (s : State) (h : WF s) : WF (step o s) := by
  cases o with
  | create p n u =>
    cases n with
    | none => exact h
    | some nv =>
      cases u with
      | none => exact h
      | some uv =>
        intro c hc
        obtain ⟨f, hf, hfid⟩ := h c hc
        exact ⟨f, List.mem_append_left _ hf, hfid⟩
  | put p id0 n =>
    cases hres : s.files.find? (fun f => f.id == id0) with
    | none => simpa [step, filePut, hres] using h
    | some f =>
      cases n with
      | none => simpa [step, filePut, hres] using h
      | some nv =>
        intro c hc
        simp only [step, filePut, hres] at hc ⊢
        obtain ⟨g, hg, hgid⟩ := h c hc
        exact exists_id_updateFirstFile s.files id0 nv c.fileId ⟨g, hg, hgid⟩
  | fdelete p id0 =>
    cases hres : s.files.find? (fun f => f.id == id0) with
    | none => simpa [step, fileDelete, hres] using h
    | some f =>
      intro c hc
      simp only [step, fileDelete, hres, isTruthy, if_true] at hc ⊢
      simp only [List.mem_filter, Bool.not_eq_true', beq_eq_false_iff_ne] at hc
      obtain ⟨hc1, hc2⟩ := hc
      obtain ⟨g, hg, hgid⟩ := h c hc1
      refine ⟨g, List.mem_filter.mpr ⟨hg, ?_⟩, hgid⟩
      simp only [Bool.not_eq_true', beq_eq_false_iff_ne]
      rw [hgid]
      exact hc2
  | addC p fid b =>
    cases hres : s.files.find? (fun f => f.id == fid) with
    | none => simpa [step, addComment, hres] using h
    | some f =>
      cases b with
      | none => simpa [step, addComment, hres] using h
      | some bv =>
        intro c hc
        simp only [step, addComment, hres] at hc ⊢
        rcases List.mem_append.mp hc with hc' | hc'
        · exact h c hc'
        · have hceq : c = ⟨freshCommentId s, fid, p, bv⟩ := List.mem_singleton.mp hc'
          subst hceq
          have hfm : f ∈ s.files := List.mem_of_find?_eq_some hres
          have hfid : (f.id == fid) = true :=
            List.find?_some (p := fun g : File => g.id == fid) hres
          exact ⟨f, hfm, by simpa [beq_iff_eq] using hfid⟩
  | putC p id0 b =>
    cases hres : s.comments.find? (fun c => c.id == id0) with
    | none => simpa [step, updateComment, hres] using h
    | some c0 =>
      cases b with
      | none => simpa [step, updateComment, hres] using h
      | some bv =>
        intro c hc
        simp only [step, updateComment, hres] at hc ⊢
        obtain ⟨c1, hc1, hcf⟩ :=
          exists_fileId_updateFirstComment s.comments id0 bv c hc
        obtain ⟨f, hf, hfid⟩ := h c1 hc1
        exact ⟨f, hf, hfid.trans hcf⟩
  | delC p id0 =>
    cases hres : s.comments.find? (fun c => c.id == id0) with
    | none => simpa [step, deleteComment, hres] using h
    | some c0 =>
      cases hres2 : s.files.find? (fun f => f.id == c0.fileId) with
      | none => simpa [step, deleteComment, hres, hres2] using h
      | some f0 =>
        by_cases hperm : (p == c0.owner || p == f0.owner) = true
        · intro c hc
          simp only [step, deleteComment, hres, hres2, hperm, if_true] at hc ⊢
          rw [List.mem_filter] at hc
          exact h c hc.1
        · have hperm' : (p == c0.owner || p == f0.owner) = false := by
            simpa using hperm
          simpa [step, deleteComment, hres, hres2, hperm'] using h

/-- C5: a successful file delete removes every comment referencing the file
(no dangling reference remains retrievable), and every state reachable from
the empty database keeps the invariant that each comment references a live
file. -/
theorem fileDelete_cascade_invariant :
    (∀ (p fid : Nat) (s : State) (f : File),
      s.files.find? (fun g => g.id == fid) = some f →
      (fileDelete p fid s).1 = Resp.okSuccess "file deleted succesfully" ∧
      ∀ c ∈ (fileDelete p fid s).2.comments, c.fileId ≠ fid) ∧
    (∀ s, Reachable s → WF s) := by
  constructor
  · intro p fid s f h
    refine ⟨?_, ?_⟩
    · simp [fileDelete, h, isTruthy]
    · intro c hc
      simp only [fileDelete, h, isTruthy, if_true] at hc
      simp only [List.mem_filter, Bool.not_eq_true', beq_eq_false_iff_ne] at hc
      exact hc.2
  · intro s hr
    induction hr with
    | init =>
      intro c hc
      simp at hc
    | next o _ ih => exact WF_step o _ ih

/-- C5 witness: deleting file 1 removes the comment on it, and the empty
database satisfies the invariant. -/
theorem fileDelete_cascade_invariant_witness :
    ((fileDelete 9 1 ⟨[⟨1, 10, "f", "u"⟩], [⟨5, 1, 20, "hi"⟩]⟩).1 =
        Resp.okSuccess "file deleted succesfully" ∧
      ∀ c ∈ (fileDelete 9 1 ⟨[⟨1, 10, "f", "u"⟩], [⟨5, 1, 20, "hi"⟩]⟩).2.comments,
        c.fileId ≠ 1) ∧
    WF ⟨[], []⟩ :=
  ⟨fileDelete_cascade_invariant.1 9 1 ⟨[⟨1, 10, "f", "u"⟩], [⟨5, 1, 20, "hi"⟩]⟩
      ⟨1, 10, "f", "u"⟩ rfl,
   fileDelete_cascade_invariant.2 ⟨[], []⟩ Reachable.init⟩

end MediReg
